import Mathlib

/-!
Verification of the `aiw` CLI's model-name resolver, process orchestrator
spawn behaviour, completion watcher, and session coordinator, as a shallow
embedding of the TypeScript sources:

* `src/lib/cursorAgent.ts`       — model resolver + command construction
* `src/lib/completionWatcher.ts` — filesystem-polling completion watcher
* `src/commands/run.ts`          — session coordinator (`runCommand`)

Strings are modelled as Lean `String` (a list of characters); JavaScript
`toLowerCase` is modelled on its ASCII fragment (the only fragment the
resolver can see after charset validation, and the watcher's pattern data
is ASCII markdown); JavaScript floating-point similarity scores are
modelled as exact rationals (all scores are small fractions m/n whose
distance from the 0.7 threshold is far above double rounding error, so the
float and rational comparisons agree on every representable input);
`Date.now()`/`mtimeMs` timestamps are modelled as integer milliseconds.
Thrown exceptions are modelled with `Except`; filesystem faults are
modelled as `none`-valued observations.
-/

/-- Model of JavaScript `String.prototype.toLowerCase` on a single ASCII
character: uppercase `A`–`Z` maps to the corresponding lowercase letter,
every other character is unchanged. -/
def lowerChar : Char → Char
  | 'A' => 'a' | 'B' => 'b' | 'C' => 'c' | 'D' => 'd' | 'E' => 'e'
  | 'F' => 'f' | 'G' => 'g' | 'H' => 'h' | 'I' => 'i' | 'J' => 'j'
  | 'K' => 'k' | 'L' => 'l' | 'M' => 'm' | 'N' => 'n' | 'O' => 'o'
  | 'P' => 'p' | 'Q' => 'q' | 'R' => 'r' | 'S' => 's' | 'T' => 't'
  | 'U' => 'u' | 'V' => 'v' | 'W' => 'w' | 'X' => 'x' | 'Y' => 'y'
  | 'Z' => 'z'
  | c => c

/-- Model of `s.toLowerCase()`. -/
def lowerStr (s : String) : String := String.mk (s.data.map lowerChar)

/-- The fixed `SUPPORTED_MODELS` list from `cursorAgent.ts`. -/
def SUPPORTED_MODELS : List String :=
  ["auto", "opus-4.5-thinking", "opus-4.5", "sonnet-4.5",
   "sonnet-4.5-thinking", "gpt-5.2", "gemini-3-pro", "gemini-3-flash"]

/-- Embedding of `calculateSimilarity` (`cursorAgent.ts` lines 55–75):
pick the longer and the shorter of the two strings by length (ties make
`str2` the longer one, as in the source's strict `>` comparison), count the
shorter string's characters that occur anywhere in the longer string
(case-insensitively), and divide by the longer string's length.  Scores are
exact rationals; see the header comment for why this is faithful to the
source's floating-point arithmetic. -/
def calculateSimilarity (str1 str2 : String) : ℚ :=
  let longer := if str1.length > str2.length then str1 else str2
  let shorter := if str1.length > str2.length then str2 else str1
  if longer.length = 0 then 1
  else
    let longerLower := (lowerStr longer).data
    let shorterLower := (lowerStr shorter).data
    let matchCount := (shorterLower.filter (fun c => longerLower.contains c)).length
    (matchCount : ℚ) / (longer.length : ℚ)

/-- Model of removing every hyphen from a string (the source's global
hyphen-regex `replace` with the empty string). -/
def stripHyphens (s : String) : String :=
  String.mk (s.data.filter (fun c => !(c == '-')))

/-- Model of removing every hyphen and then every underscore from a string
(the source's chained global `replace` calls). -/
def stripSeparators (s : String) : String :=
  String.mk (s.data.filter (fun c => !(c == '-') && !(c == '_')))

/-- Model of replacing every hyphen with an underscore (the source's
global hyphen-regex `replace` with `"_"`). -/
def hyphensToUnderscores (s : String) : String :=
  String.mk (s.data.map (fun c => if c == '-' then '_' else c))

/-- Model of replacing every underscore with a hyphen (used only by the
specification-side description of the resolver's third step). -/
def underscoresToHyphens (s : String) : String :=
  String.mk (s.data.map (fun c => if c == '_' then '-' else c))

/-- Embedding of the final similarity loop of `findClosestModel`
(`cursorAgent.ts` lines 113–125): a left fold carrying the current best
match and best score, starting from no match and the 0.7 threshold, and
replacing the accumulator only on a strictly greater score. -/
def similarityLoop (modelLower : String) : Option String × ℚ :=
  SUPPORTED_MODELS.foldl
    (fun acc supported =>
      let score := calculateSimilarity modelLower (lowerStr supported)
      if score > acc.2 then (some supported, score) else acc)
    ((none : Option String), (7 / 10 : ℚ))

/-- Embedding of `findClosestModel` (`cursorAgent.ts` lines 84–126).
Each `for … return` loop of the source is a `List.find?` (first element
satisfying the test, in list order), tried in the source's order with the
first hit winning; the last step is the best-score fold `similarityLoop`. -/
def findClosestModel (model : String) : Option String :=
  let modelLower := lowerStr model
  match SUPPORTED_MODELS.find? (fun s => decide (lowerStr s = modelLower)) with
  | some s => some s
  | none =>
  match SUPPORTED_MODELS.find? (fun s =>
      decide (lowerStr (stripHyphens s) = lowerStr (stripSeparators model))) with
  | some s => some s
  | none =>
  match SUPPORTED_MODELS.find? (fun s =>
      decide (lowerStr (hyphensToUnderscores s) = modelLower)) with
  | some s => some s
  | none => (similarityLoop modelLower).1

/-- Structured form of the errors thrown by the resolver. -/
inductive ModelError where
  /-- Thrown by `validateModelName`: the model string contains a character
  outside `[A-Za-z0-9._-]`. -/
  | invalidChars (model : String)
  /-- Thrown by `validateModelRecognition`: unrecognized model, with the
  single closest suggestion. -/
  | notRecognizedSuggest (model suggestion : String)
  /-- Thrown by `validateModelRecognition`: unrecognized model, no close
  match; the error lists the full supported model set. -/
  | notRecognizedList (model : String) (available : List String)
  deriving DecidableEq

/-- The allowed character set `[a-zA-Z0-9._-]` of `validateModelName`. -/
def allowedChar (c : Char) : Bool :=
  ('a' ≤ c && c ≤ 'z') || ('A' ≤ c && c ≤ 'Z') || ('0' ≤ c && c ≤ '9') ||
    c == '.' || c == '_' || c == '-'

/-- Embedding of `validateModelName` (`cursorAgent.ts` lines 136–142):
strip every disallowed character (the `replace(/[^a-zA-Z0-9._-]/g, "")`),
throw if that changed the string, otherwise return it. -/
def validateModelName (model : String) : Except ModelError String :=
  let sanitized := String.mk (model.data.filter allowedChar)
  if sanitized ≠ model then Except.error (ModelError.invalidChars model)
  else Except.ok sanitized

/-- Embedding of `validateModelRecognition` (`cursorAgent.ts` lines
153–174): security validation first, then the exact case-insensitive
lookup returning the canonical casing, then `findClosestModel` to decide
which recognition error to throw. -/
def validateModelRecognition (model : String) : Except ModelError String :=
  match validateModelName model with
  | Except.error e => Except.error e
  | Except.ok sanitized =>
    let modelLower := lowerStr sanitized
    match SUPPORTED_MODELS.find? (fun s => decide (lowerStr s = modelLower)) with
    | some supported => Except.ok supported
    | none =>
      match findClosestModel sanitized with
      | some suggestion =>
          Except.error (ModelError.notRecognizedSuggest model suggestion)
      | none =>
          Except.error (ModelError.notRecognizedList model SUPPORTED_MODELS)

/-- Output formats accepted by the CLI wrapper. -/
inductive OutputFormat where
  | text
  | json
  deriving DecidableEq

/-- Rendering of an `OutputFormat` as the literal argv string. -/
def outputFormatStr : OutputFormat → String
  | OutputFormat.text => "text"
  | OutputFormat.json => "json"

/-- Embedding of `RunCursorAgentOptions` (`cursorAgent.ts` lines 28–39).
Absent optional fields are `none` / `false`. -/
structure RunCursorAgentOptions where
  print : Bool
  outputFormat : Option OutputFormat
  interactive : Bool
  promptDelay : Option ℚ
  model : Option String

/-- Embedding of `buildCursorArgs` (`cursorAgent.ts` lines 182–198).  The
JavaScript truthiness test `if (options.model)` skips the empty string, so
the empty model bypasses validation exactly as in the source. -/
def buildCursorArgs (options : RunCursorAgentOptions) : Except ModelError (List String) := do
  let args0 : List String := ["agent"]
  let args1 ←
    match options.model with
    | some m =>
      if m = "" then pure args0
      else do
        let validatedModel ← validateModelRecognition m
        pure (args0 ++ ["--model", validatedModel])
    | none => pure args0
  let args2 :=
    if options.print then
      args1 ++ ["-p"] ++
        (match options.outputFormat with
         | some fmt => ["--output-format", outputFormatStr fmt]
         | none => [])
    else args1
  pure args2

/-- Embedding of `buildCursorCommand` (`cursorAgent.ts` lines 206–209). -/
def buildCursorCommand (options : RunCursorAgentOptions) : Except ModelError String :=
  (buildCursorArgs options).map (fun args => "cursor " ++ " ".intercalate args)

/-- Host platform distinction used by `getShellConfig`. -/
inductive Platform where
  | win32
  | posix
  deriving DecidableEq

/-- Shell plus argument-builder, as returned by `getShellConfig`. -/
structure ShellConfig where
  shell : String
  shellArgs : String → List String

/-- Embedding of `getShellConfig` (`cursorAgent.ts` lines 216–229).  The
`process.env.SHELL || "/bin/bash"` fallback treats the empty string as
unset. -/
def getShellConfig (platform : Platform) (envShell : Option String) : ShellConfig :=
  match platform with
  | Platform.win32 =>
    { shell := "cmd.exe", shellArgs := fun cmd => ["/c", cmd] }
  | Platform.posix =>
    let userShell :=
      match envShell with
      | some sh => if sh = "" then "/bin/bash" else sh
      | none => "/bin/bash"
    { shell := userShell, shellArgs := fun cmd => ["-c", cmd] }

/-- Observable spawn behaviour of `runCursorAgent`: the shell executable
and argv passed to `pty.spawn`, the data later written to the
pseudo-terminal's input channel, and the prompt-injection delay. -/
structure SpawnSpec where
  shell : String
  args : List String
  ptyWrites : List String
  promptDelayMs : ℚ
  deriving DecidableEq

/-- Embedding of the spawn-relevant behaviour of `runCursorAgent`
(`cursorAgent.ts` lines 243–302): build the command string from the
options alone, resolve the platform shell, spawn `shell shellArgs(cmd)`,
and after the configured delay write the prompt — followed by a carriage
return in non-interactive mode — to the pseudo-terminal data channel. -/
def runCursorAgentSpawn (prompt : String) (options : RunCursorAgentOptions)
    (platform : Platform) (envShell : Option String) : Except ModelError SpawnSpec :=
  (buildCursorCommand options).map (fun cursorCmd =>
    let cfg := getShellConfig platform envShell
    let delay := (match options.promptDelay with
      | some d => d
      | none => 1) * 1000
    { shell := cfg.shell
      args := cfg.shellArgs cursorCmd
      ptyWrites := [prompt] ++ (if options.interactive then [] else ["\r"])
      promptDelayMs := delay })

/-- Whitespace characters matched by the JavaScript regex class `\s`
(ASCII fragment: space, tab, line feed, carriage return, vertical tab,
form feed). -/
def isWsChar (c : Char) : Bool :=
  c == ' ' || c == '\t' || c == '\n' || c == '\r' || c == '\x0b' || c == '\x0c'

/-- The fixed literal part of the correlation regex in `checkFile`,
already lowercased (the regex carries the case-insensitive flag). -/
def headShaHeader : List Char := "**head sha:**".data

/-- Matching of `\s*` followed by the literal `pat`: either `pat` matches
here, or one whitespace character is consumed and matching continues. -/
def wsThen (pat : List Char) : List Char → Bool
  | [] => pat.isEmpty
  | c :: rest => pat.isPrefixOf (c :: rest) || (isWsChar c && wsThen pat rest)

/-- Matching of the full correlation pattern at the head of `s`: the
literal `**head sha:**`, then `\s*`, then the (lowercased) token. -/
def shaAt (sha : List Char) (s : List Char) : Bool :=
  headShaHeader.isPrefixOf s && wsThen sha (s.drop headShaHeader.length)

/-- Regex search: the pattern matches at some position of the text. -/
def containsShaAux (sha : List Char) : List Char → Bool
  | [] => shaAt sha []
  | c :: rest => shaAt sha (c :: rest) || containsShaAux sha rest

/-- Model of `new RegExp("\\*\\*Head SHA:\\*\\*\\s*" + headSha, "i")
.test(contents)` from `checkFile`: both the text and the token are
lowercased (the `i` flag) and the pattern is searched at every position.
The interpolated token is treated as literal text (in the program it is a
hexadecimal git SHA, which contains no regex metacharacters). -/
def shaPatternFound (headSha contents : String) : Bool :=
  containsShaAux (lowerStr headSha).data (lowerStr contents).data

/-- Outcome of the filesystem calls `checkFile` performs on one candidate
file during one poll cycle: `statResult` is the observed `mtimeMs`
(`none` when `fs.stat` throws), `readResult` is the observed text content
(`none` when `fs.readFile` throws). -/
structure FileObservation where
  statResult : Option Int
  readResult : Option String
  deriving DecidableEq

/-- The 50ms timing buffer of `checkFile`. -/
def timingBuffer : Int := 50

/-- Embedding of `checkFile` (`completionWatcher.ts` lines 182–228): a
stat failure is no match; a file whose `mtimeMs` is at or before
`sessionStartTime - 50` is no match; when a correlation token is
configured, a read failure is no match and the contents must contain the
correlation pattern; otherwise the file path is returned as the match.
The function is total: every filesystem fault maps to `none` rather than
an exception. -/
def checkFile (sessionStartTime : Int) (headSha : Option String)
    (filePath : String) (file : FileObservation) : Option String :=
  match file.statResult with
  | none => none
  | some fileMtime =>
    if fileMtime ≤ sessionStartTime - timingBuffer then none
    else
      match headSha with
      | none => some filePath
      | some sha =>
        match file.readResult with
        | none => none
        | some contents =>
          if shaPatternFound sha contents then some filePath else none

/-- Terminal events a completion watcher can emit. -/
inductive WEvent where
  | complete
  | timeout
  deriving DecidableEq

/-- State of one completion watcher (`startCompletionWatcher`,
`completionWatcher.ts` lines 124–364): the `isStopped` flag, whether the
repeating poll interval and the one-shot duration timer are still armed,
the queue of in-flight asynchronous `poll()` invocations (each recorded
with the match result its filesystem reads will produce), and the list of
events emitted so far. -/
structure WState where
  isStopped : Bool
  intervalArmed : Bool
  timerArmed : Bool
  pending : List Bool
  events : List WEvent
  deriving DecidableEq

/-- Watcher state immediately after `startCompletionWatcher` returns:
running, both timers armed, no poll in flight, nothing emitted. -/
def initialWatcher : WState :=
  { isStopped := false, intervalArmed := true, timerArmed := true,
    pending := [], events := [] }

/-- Embedding of the watcher's `stop` closure (`completionWatcher.ts`
lines 158–173): an early return when already stopped, otherwise set the
flag and clear — disarm — both the repeating poll interval and the
one-shot duration timer.  It is a total function (never throws) and never
touches `events`. -/
def stopWatcher (s : WState) : WState :=
  if s.isStopped then s
  else { s with isStopped := true, intervalArmed := false, timerArmed := false }

/-- Fine-grained scheduler actions on a watcher.  `pollStart m` is a
`poll()` invocation passing its initial `isStopped` check and suspending
at its filesystem `await`s, whose reads will produce match result `m`
(the result depends only on the filesystem, and the source performs no
further `isStopped` check between its last `await` and its emit on the
single-file watch path); `pollFinish` is the oldest suspended poll
resuming and running to completion; `timeoutFire` is the one-shot duration
timer firing; `stopCall` is an external `stop()` call. -/
inductive WAct where
  | pollStart (willMatch : Bool)
  | pollFinish
  | timeoutFire
  | stopCall
  deriving DecidableEq

/-- One scheduler step of the watcher, from `completionWatcher.ts`:
a poll invoked on a stopped watcher returns at once (lines 285–287); a
resumed poll that found a match calls `stop()` and then emits `complete`
with no re-check of `isStopped` (lines 326–333); the duration timer, when
it fires, disarms itself and its callback emits `timeout` only after
checking the flag (lines 351–356); `stop()` is as in `stopWatcher`. -/
def stepW (s : WState) : WAct → WState
  | WAct.pollStart m =>
    if s.isStopped then s else { s with pending := s.pending ++ [m] }
  | WAct.pollFinish =>
    match s.pending with
    | [] => s
    | m :: rest =>
      if m then
        let s' := stopWatcher { s with pending := rest }
        { s' with events := s'.events ++ [WEvent.complete] }
      else { s with pending := rest }
  | WAct.timeoutFire =>
    if s.timerArmed then
      if s.isStopped then { s with timerArmed := false }
      else
        let s' := stopWatcher { s with timerArmed := false }
        { s' with events := s'.events ++ [WEvent.timeout] }
    else s
  | WAct.stopCall => stopWatcher s

/-- Run of a fine-grained action sequence from the freshly-started
watcher. -/
def runW (tr : List WAct) : WState := tr.foldl stepW initialWatcher

/-- Coarse (atomic) actions: a poll whose start and completion are not
interleaved with anything else, the timer firing, and an external
`stop()`. -/
inductive AAct where
  | poll (willMatch : Bool)
  | timeoutFire
  | stopCall
  deriving DecidableEq

/-- Interpretation of an atomic action as its fine-grained steps. -/
def toFine : AAct → List WAct
  | AAct.poll m => [WAct.pollStart m, WAct.pollFinish]
  | AAct.timeoutFire => [WAct.timeoutFire]
  | AAct.stopCall => [WAct.stopCall]

/-- One atomic step. -/
def stepA (s : WState) (a : AAct) : WState := (toFine a).foldl stepW s

/-- Run of an atomic action sequence from the freshly-started watcher. -/
def runAtomic (tr : List AAct) : WState := tr.foldl stepA initialWatcher

/-- Host-visible actions of the session coordinator's `complete` handler
in `runCommand` (`src/commands/run.ts`). -/
inductive HostAction where
  | writeStdout (msg : String)
  | stopWatcher
  | killAgent
  | exitProcess (code : Nat)
  deriving DecidableEq

/-- Embedding of the `watcher.on("complete", …)` handler of `runCommand`
(`run.ts`, the session coordinator): print the detection notice, stop the
watcher, attempt to kill the agent handle, and exit the host with code 0
in the success branch of the `try` as well as in its `catch`. -/
def onCompleteHandler (artifactPath : String) (killResult : Except String Unit) :
    List HostAction :=
  [HostAction.writeStdout
      ("\nArtifact detected (" ++ artifactPath ++ "). Auto-exiting interactive session...\n"),
   HostAction.stopWatcher,
   HostAction.killAgent] ++
  (match killResult with
   | Except.ok _ => [HostAction.exitProcess 0]
   | Except.error _ => [HostAction.exitProcess 0])

/-- Exit codes requested by a list of host actions. -/
def exitCodes (actions : List HostAction) : List Nat :=
  actions.filterMap (fun a =>
    match a with
    | HostAction.exitProcess c => some c
    | _ => none)

/-- Decidable equality for `Except`, used to evaluate resolver results on
concrete inputs. -/
instance {ε α : Type} [DecidableEq ε] [DecidableEq α] : DecidableEq (Except ε α)
  | Except.ok a, Except.ok b =>
    if h : a = b then isTrue (by rw [h])
    else isFalse (by intro hh; cases hh; exact h rfl)
  | Except.ok _, Except.error _ => isFalse (by intro h; cases h)
  | Except.error _, Except.ok _ => isFalse (by intro h; cases h)
  | Except.error e, Except.error f =>
    if h : e = f then isTrue (by rw [h])
    else isFalse (by intro hh; cases hh; exact h rfl)

/-- C1: for every session start time `T` and every watched file that
exists (a successful stat observing modification time `M`), of the
allowed kind, with no correlation token configured, the watcher's file
check reports a match if and only if `M > T - 50`; in particular a file
with `M` exactly `T - 50` or older is never a match. -/
theorem c1_mtime_window (T M : Int) (filePath : String) (r : Option String) :
    (checkFile T none filePath { statResult := some M, readResult := r } = some filePath
        ↔ M > T - 50)
    ∧ (M ≤ T - 50 →
        checkFile T none filePath { statResult := some M, readResult := r } = none) := by
  unfold checkFile timingBuffer
  dsimp only
  constructor
  · split_ifs with h
    · simp
      omega
    · simp
      omega
  · intro hM
    rw [if_pos hM]

/-- Witness for C1 at the boundary `M = T - 50`. -/
theorem c1_mtime_window_witness :
    checkFile 1000 none "f.md" { statResult := some 950, readResult := none } = none :=
  (c1_mtime_window 1000 950 "f.md" none).2 (by decide)

/-- C7: whenever a correlation token is configured, a freshly-modified
file matches exactly when its contents contain the case-insensitive
pattern `**Head SHA:** token`; a stat failure or a read failure during
the check is no match this cycle — `checkFile` is a total function into
`Option`, so it never raises, and a `none` result produces no event and
does not end the watcher. -/
theorem c7_correlation_and_io (T : Int) (sha filePath : String) (file : FileObservation) :
    (file.statResult = none → checkFile T (some sha) filePath file = none)
    ∧ (file.readResult = none → checkFile T (some sha) filePath file = none)
    ∧ (∀ M contents, file.statResult = some M → M > T - 50 →
        file.readResult = some contents →
        (checkFile T (some sha) filePath file = some filePath
          ↔ shaPatternFound sha contents = true)) := by
  obtain ⟨st, rd⟩ := file
  refine ⟨?_, ?_, ?_⟩
  · intro h
    simp only at h
    subst h
    rfl
  · intro h
    simp only at h
    subst h
    unfold checkFile
    dsimp only
    cases st with
    | none => rfl
    | some M =>
      dsimp only
      split_ifs <;> rfl
  · intro M contents hst hM hrd
    simp only at hst hrd
    subst hst
    subst hrd
    unfold checkFile timingBuffer
    dsimp only
    rw [if_neg (by omega)]
    split_ifs with hp <;> simp [hp]

/-- Witness for C7: a stat failure yields no match, and a fresh file whose
contents carry the configured token is a match. -/
theorem c7_correlation_and_io_witness :
    checkFile 0 (some "abc123") "f.md" { statResult := none, readResult := none } = none
    ∧ checkFile 0 (some "abc123") "f.md"
        { statResult := some 100, readResult := some "x\n**Head SHA:**   ABC123\ny" }
      = some "f.md" :=
  ⟨(c7_correlation_and_io 0 "abc123" "f.md" _).1 rfl,
   ((c7_correlation_and_io 0 "abc123" "f.md" _).2.2 100 "x\n**Head SHA:**   ABC123\ny"
      rfl (by decide) rfl).mpr (by decide)⟩

/-- C9: on the watcher's `complete` event the session coordinator stops
the watcher, attempts to kill the agent, and requests host exit code 0
whether the kill succeeds or throws: the only exit code the handler can
request is 0, and it is the handler's final action in either case. -/
theorem c9_complete_exits_zero (artifactPath : String) (killResult : Except String Unit) :
    exitCodes (onCompleteHandler artifactPath killResult) = [0]
    ∧ HostAction.stopWatcher ∈ onCompleteHandler artifactPath killResult
    ∧ HostAction.killAgent ∈ onCompleteHandler artifactPath killResult
    ∧ (onCompleteHandler artifactPath killResult).getLast?
        = some (HostAction.exitProcess 0) := by
  cases killResult <;>
    exact ⟨rfl, by simp [onCompleteHandler], by simp [onCompleteHandler], rfl⟩

/-- C8: the shell executable and the argument list handed to the
pseudo-terminal spawn are identical for any two prompts under the same
options, platform and environment — the prompt never reaches the command
line; it is delivered only through the pseudo-terminal data channel
(`ptyWrites`), followed by a carriage return exactly in non-interactive
mode. -/
theorem c8_prompt_never_in_command (p1 p2 : String) (options : RunCursorAgentOptions)
    (platform : Platform) (envShell : Option String) :
    (runCursorAgentSpawn p1 options platform envShell).map (fun sp => (sp.shell, sp.args))
      = (runCursorAgentSpawn p2 options platform envShell).map (fun sp => (sp.shell, sp.args))
    ∧ (runCursorAgentSpawn p1 options platform envShell).map (fun sp => sp.ptyWrites)
      = (buildCursorCommand options).map (fun _ =>
          [p1] ++ (if options.interactive then [] else ["\r"])) := by
  unfold runCursorAgentSpawn
  cases h : buildCursorCommand options <;> simp [Except.map]

/-- C3: `stop()` is idempotent — the first call from a running state sets
the stopped flag and clears (disarms) both the repeating poll interval
and the one-shot duration timer; any further call returns the state
unchanged; no call ever appends an event; and the embedded `stopWatcher`
is a total function, so `stop()` never throws. -/
theorem c3_stop_idempotent (s : WState) :
    stopWatcher (stopWatcher s) = stopWatcher s
    ∧ (stopWatcher s).events = s.events
    ∧ (stopWatcher s).isStopped = true
    ∧ (s.isStopped = false →
        (stopWatcher s).intervalArmed = false ∧ (stopWatcher s).timerArmed = false) := by
  by_cases h : s.isStopped <;> simp [stopWatcher, h]

/-- Witness for C3 at the freshly-started watcher state. -/
theorem c3_stop_idempotent_witness :
    (stopWatcher initialWatcher).intervalArmed = false
    ∧ (stopWatcher initialWatcher).timerArmed = false :=
  (c3_stop_idempotent initialWatcher).2.2.2 rfl

/-- Invariant of the watcher state under atomic scheduling: no poll is
left in flight between steps, at most one event has been emitted, a
running watcher has emitted nothing, and a stopped watcher has its
one-shot timer disarmed. -/
def WInv (s : WState) : Prop :=
  s.pending = [] ∧ s.events.length ≤ 1
    ∧ (s.isStopped = false → s.events = [])
    ∧ (s.isStopped = true → s.timerArmed = false)

theorem winv_initial : WInv initialWatcher := by
  refine ⟨rfl, by simp [initialWatcher], fun _ => rfl, fun h => by simp [initialWatcher] at h⟩

theorem stepA_of_stopped (s : WState) (a : AAct) (h : s.isStopped = true)
    (hp : s.pending = []) (ht : s.timerArmed = false) : stepA s a = s := by
  cases a with
  | poll m => simp [stepA, toFine, stepW, h, hp]
  | timeoutFire => simp [stepA, toFine, stepW, ht]
  | stopCall => simp [stepA, toFine, stepW, stopWatcher, h]

theorem stepA_preserves_winv (s : WState) (a : AAct) (h : WInv s) : WInv (stepA s a) := by
  obtain ⟨hp, hlen, hrun, htimer⟩ := h
  by_cases hs : s.isStopped = true
  · rw [stepA_of_stopped s a hs hp (htimer hs)]
    exact ⟨hp, hlen, hrun, htimer⟩
  · rw [Bool.not_eq_true] at hs
    have hev : s.events = [] := hrun hs
    cases a with
    | poll m =>
      cases m <;>
        simp [stepA, toFine, stepW, stopWatcher, hs, hp, hev, WInv]
    | timeoutFire =>
      by_cases ht : s.timerArmed = true <;>
        simp_all [stepA, toFine, stepW, stopWatcher, hs, hev, WInv]
    | stopCall =>
      simp [stepA, toFine, stepW, stopWatcher, hs, hp, hev, WInv]

theorem foldl_stepA_winv (tr : List AAct) (s : WState) (h : WInv s) :
    WInv (tr.foldl stepA s) := by
  induction tr generalizing s with
  | nil => exact h
  | cons a tr ih => exact ih (stepA s a) (stepA_preserves_winv s a h)

theorem foldl_stepA_of_stopped (tr : List AAct) (s : WState) (h : WInv s)
    (hs : s.isStopped = true) : tr.foldl stepA s = s := by
  induction tr with
  | nil => rfl
  | cons a tr ih =>
    have := stepA_of_stopped s a hs h.1 (h.2.2.2 hs)
    rw [List.foldl_cons, this, ih]

theorem runAtomic_winv (tr : List AAct) : WInv (runAtomic tr) :=
  foldl_stepA_winv tr initialWatcher winv_initial

/-- C2, counterexample: the claim quantifies over every interleaving of
poll completions, the timeout firing and external `stop()` calls, but
`poll()` never re-checks `isStopped` between resuming from its filesystem
`await` and emitting, so: two overlapping polls that both observe a fresh
artifact emit `complete` twice; a poll overlapping an external `stop()`
still emits `complete` after the stop; and a poll overlapping the timeout
emits `complete` after `timeout`, giving both terminal events.  Each trace
below is realizable in the source's single-threaded event loop (the
initial out-of-band poll may overlap the first interval tick, and any
`await` may resolve after an intervening `stop()` or timer callback). -/
theorem c2_counterexample :
    (runW [WAct.pollStart true, WAct.pollStart true, WAct.pollFinish, WAct.pollFinish]).events
        = [WEvent.complete, WEvent.complete]
    ∧ (runW [WAct.pollStart true, WAct.stopCall, WAct.pollFinish]).events
        = [WEvent.complete]
    ∧ (runW [WAct.pollStart true, WAct.timeoutFire, WAct.pollFinish]).events
        = [WEvent.timeout, WEvent.complete] := by
  decide

/-- C2, amended: restricted to interleavings in which each poll is atomic
— its stopped-check, filesystem reads, and possible emission are not
interleaved with another poll, the timeout firing, or a `stop()` call —
the watcher emits at most one terminal event in its lifetime (never both
kinds, never two of the same kind), and after the watcher is stopped (by
a terminal event or an external `stop()`) every further action leaves the
state — events included — unchanged. -/
theorem c2_amended_single_event (tr : List AAct) :
    ((runAtomic tr).events = []
      ∨ (runAtomic tr).events = [WEvent.complete]
      ∨ (runAtomic tr).events = [WEvent.timeout])
    ∧ (∀ tr', (runAtomic tr).isStopped = true → runAtomic (tr ++ tr') = runAtomic tr) := by
  have hinv := runAtomic_winv tr
  constructor
  · have hlen := hinv.2.1
    cases hev : (runAtomic tr).events with
    | nil => exact Or.inl rfl
    | cons e rest =>
      rw [hev] at hlen
      simp at hlen
      subst hlen
      cases e with
      | complete => exact Or.inr (Or.inl rfl)
      | timeout => exact Or.inr (Or.inr rfl)
  · intro tr' hs
    unfold runAtomic
    rw [List.foldl_append]
    exact foldl_stepA_of_stopped tr' (runAtomic tr) hinv hs

/-- Witness for C2's amended theorem: after an atomic `stop()`, a further
atomic poll that would match changes nothing. -/
theorem c2_amended_single_event_witness :
    ((runAtomic [AAct.stopCall]).events = []
      ∨ (runAtomic [AAct.stopCall]).events = [WEvent.complete]
      ∨ (runAtomic [AAct.stopCall]).events = [WEvent.timeout])
    ∧ runAtomic ([AAct.stopCall] ++ [AAct.poll true]) = runAtomic [AAct.stopCall] :=
  ⟨(c2_amended_single_event [AAct.stopCall]).1,
   (c2_amended_single_event [AAct.stopCall]).2 [AAct.poll true] (by decide)⟩

theorem string_mk_filter_allowed_eq (model : String)
    (hall : ∀ c ∈ model.data, allowedChar c = true) :
    String.mk (model.data.filter allowedChar) = model := by
  rw [List.filter_eq_self.mpr hall]

/-- C4: a model string containing any character outside `[A-Za-z0-9._-]`
is rejected by `validateModelName` before recognition is attempted
(`validateModelRecognition` propagates the same charset error) and before
any command line is constructed (`buildCursorArgs` and
`buildCursorCommand` fail with that same error); a model string of only
allowed characters is returned unchanged — never silently sanitized. -/
theorem c4_charset_rejection (model : String) :
    ((∃ c ∈ model.data, allowedChar c = false) →
      validateModelName model = Except.error (ModelError.invalidChars model)
      ∧ validateModelRecognition model = Except.error (ModelError.invalidChars model)
      ∧ (∀ options : RunCursorAgentOptions, options.model = some model →
          buildCursorArgs options = Except.error (ModelError.invalidChars model)
          ∧ buildCursorCommand options = Except.error (ModelError.invalidChars model)))
    ∧ ((∀ c ∈ model.data, allowedChar c = true) →
        validateModelName model = Except.ok model) := by
  constructor
  · rintro ⟨c, hc, hbad⟩
    have hne : String.mk (model.data.filter allowedChar) ≠ model := by
      intro h
      have hdata : model.data.filter allowedChar = model.data := by
        cases model with
        | mk d => exact congrArg String.data h
      have := List.filter_eq_self.mp hdata c hc
      rw [this] at hbad
      exact absurd hbad (by decide)
    have hvn : validateModelName model = Except.error (ModelError.invalidChars model) := by
      simp only [validateModelName]
      rw [if_pos hne]
    have hvr : validateModelRecognition model
        = Except.error (ModelError.invalidChars model) := by
      unfold validateModelRecognition
      rw [hvn]
    refine ⟨hvn, hvr, ?_⟩
    intro options hmod
    have hnempty : model ≠ "" := by
      intro h
      subst h
      simp at hc
    have hargs : buildCursorArgs options = Except.error (ModelError.invalidChars model) := by
      unfold buildCursorArgs
      rw [hmod]
      dsimp only
      rw [if_neg hnempty, hvr]
      rfl
    exact ⟨hargs, by unfold buildCursorCommand; rw [hargs]; rfl⟩
  · intro hall
    have hsan := string_mk_filter_allowed_eq model hall
    simp only [validateModelName]
    rw [if_neg (by simp [hsan]), hsan]

/-- Witness for C4: a string with a `;` is rejected everywhere with the
charset error; a fully allowed string passes `validateModelName`
unchanged. -/
theorem c4_charset_rejection_witness :
    validateModelName "mod;el" = Except.error (ModelError.invalidChars "mod;el")
    ∧ validateModelRecognition "mod;el" = Except.error (ModelError.invalidChars "mod;el")
    ∧ buildCursorArgs
        { print := false, outputFormat := none, interactive := false,
          promptDelay := none, model := some "mod;el" }
      = Except.error (ModelError.invalidChars "mod;el")
    ∧ validateModelName "opus-4.5" = Except.ok "opus-4.5" := by
  have hbad := (c4_charset_rejection "mod;el").1 (by decide)
  have hargs := (hbad.2.2
    { print := false, outputFormat := none, interactive := false,
      promptDelay := none, model := some "mod;el" } rfl).1
  exact ⟨hbad.1, hbad.2.1, hargs, (c4_charset_rejection "opus-4.5").2 (by decide)⟩

theorem validateModelName_ok_of_allowed (model : String)
    (hall : ∀ c ∈ model.data, allowedChar c = true) :
    validateModelName model = Except.ok model := by
  have hsan := string_mk_filter_allowed_eq model hall
  simp only [validateModelName]
  rw [if_neg (by simp [hsan]), hsan]

theorem allowedChar_of_lower (c : Char) (h : allowedChar (lowerChar c) = true) :
    allowedChar c = true := by
  unfold lowerChar at h
  split at h <;> first | decide | exact h

theorem supported_chars (s : String) (hs : s ∈ SUPPORTED_MODELS) :
    ∀ d ∈ s.data, lowerChar d = d ∧ allowedChar d = true := by
  fin_cases hs <;> decide

theorem supported_lower_injective :
    ∀ a ∈ SUPPORTED_MODELS, ∀ b ∈ SUPPORTED_MODELS, lowerStr a = lowerStr b → a = b := by
  decide

/-- C5: every case-insensitive spelling of a supported model resolves,
without raising, to that model's canonical casing; every allowed-charset
string that matches no supported model case-insensitively always raises —
a fuzzy match is never auto-applied — with an error naming the single
closest suggestion (`findClosestModel`) when one exists and otherwise an
error listing the full supported model set. -/
theorem c5_canonical_or_raise (model : String) :
    (∀ s ∈ SUPPORTED_MODELS, lowerStr s = lowerStr model →
       validateModelRecognition model = Except.ok s)
    ∧ ((∀ c ∈ model.data, allowedChar c = true) →
       (∀ s ∈ SUPPORTED_MODELS, lowerStr s ≠ lowerStr model) →
       validateModelRecognition model =
         (match findClosestModel model with
          | some suggestion =>
              Except.error (ModelError.notRecognizedSuggest model suggestion)
          | none =>
              Except.error (ModelError.notRecognizedList model SUPPORTED_MODELS))) := by
  constructor
  · intro s hs hlow
    have hall : ∀ c ∈ model.data, allowedChar c = true := by
      intro c hc
      have hmem : lowerChar c ∈ (lowerStr model).data :=
        List.mem_map_of_mem lowerChar hc
      rw [← hlow] at hmem
      obtain ⟨d, hd, hde⟩ := List.mem_map.mp hmem
      have hsup := supported_chars s hs d hd
      apply allowedChar_of_lower
      rw [← hde, hsup.1]
      exact hsup.2
    have hvn := validateModelName_ok_of_allowed model hall
    unfold validateModelRecognition
    rw [hvn]
    dsimp only
    cases hf : SUPPORTED_MODELS.find? (fun s' => decide (lowerStr s' = lowerStr model)) with
    | none =>
      exact absurd (decide_eq_true hlow) (List.find?_eq_none.mp hf s hs)
    | some s2 =>
      have hmem := List.mem_of_find?_eq_some hf
      have hpred0 := List.find?_some hf
      simp only [decide_eq_true_eq] at hpred0
      have hpred : lowerStr s2 = lowerStr model := hpred0
      have heq : s2 = s :=
        supported_lower_injective s2 hmem s hs (hpred.trans hlow.symm)
      rw [heq]
  · intro hall hnomatch
    have hvn := validateModelName_ok_of_allowed model hall
    unfold validateModelRecognition
    rw [hvn]
    dsimp only
    have hfind : SUPPORTED_MODELS.find? (fun s' => decide (lowerStr s' = lowerStr model))
        = none :=
      List.find?_eq_none.mpr (fun x hx => by
        simp only [decide_eq_true_eq]
        exact hnomatch x hx)
    rw [hfind]

/-- Witness for C5: an uppercase spelling resolves to the canonical
casing, and a near-miss raises the single-suggestion error. -/
theorem c5_canonical_or_raise_witness :
    validateModelRecognition "AUTO" = Except.ok "auto"
    ∧ validateModelRecognition "opus4.5"
        = Except.error (ModelError.notRecognizedSuggest "opus4.5" "opus-4.5") := by
  refine ⟨(c5_canonical_or_raise "AUTO").1 "auto" (by decide) (by decide), ?_⟩
  have h := (c5_canonical_or_raise "opus4.5").2 (by decide) (by decide)
  rw [h]
  decide

/-- One iteration of the similarity loop: replace the running best only
on a strictly greater score. -/
def bestStep {α : Type} (f : α → ℚ) (acc : Option α × ℚ) (s : α) : Option α × ℚ :=
  if f s > acc.2 then (some s, f s) else acc

/-- The similarity loop as a fold over an arbitrary candidate list. -/
def bestFold {α : Type} (f : α → ℚ) (l : List α) (init : Option α × ℚ) : Option α × ℚ :=
  l.foldl (bestStep f) init

/-- Running maximum of the scores over a list, from a starting value. -/
def foldMax {α : Type} (f : α → ℚ) (t : ℚ) (l : List α) : ℚ :=
  l.foldl (fun a s => max a (f s)) t

theorem foldMax_cons {α : Type} (f : α → ℚ) (t : ℚ) (x : α) (l : List α) :
    foldMax f t (x :: l) = foldMax f (max t (f x)) l := rfl

theorem le_foldMax {α : Type} (f : α → ℚ) (l : List α) :
    ∀ t, t ≤ foldMax f t l := by
  induction l with
  | nil => exact fun t => le_refl t
  | cons x l ih =>
    intro t
    rw [foldMax_cons]
    exact le_trans (le_max_left t (f x)) (ih (max t (f x)))

theorem mem_le_foldMax {α : Type} (f : α → ℚ) (l : List α) :
    ∀ t, ∀ s ∈ l, f s ≤ foldMax f t l := by
  induction l with
  | nil => intro t s hs; cases hs
  | cons x l ih =>
    intro t s hs
    rw [foldMax_cons]
    rcases List.mem_cons.mp hs with h | h
    · subst h
      exact le_trans (le_max_right t (f s)) (le_foldMax f l (max t (f s)))
    · exact ih (max t (f x)) s h

theorem foldMax_max {α : Type} (f : α → ℚ) (l : List α) :
    ∀ t u, foldMax f (max t u) l = max t (foldMax f u l) := by
  induction l with
  | nil => intro t u; rfl
  | cons x l ih =>
    intro t u
    rw [foldMax_cons, foldMax_cons, max_assoc, ih t (max u (f x))]

theorem bestFold_snd {α : Type} (f : α → ℚ) (l : List α) :
    ∀ init, (bestFold f l init).2 = foldMax f init.2 l := by
  induction l with
  | nil => intro init; rfl
  | cons x l ih =>
    intro init
    show (bestFold f l (bestStep f init x)).2 = foldMax f (max init.2 (f x)) l
    unfold bestStep
    by_cases h : f x > init.2
    · rw [if_pos h, ih, max_eq_right (le_of_lt h)]
    · rw [if_neg h, ih, max_eq_left (not_lt.mp h)]

theorem bestFold_no_update {α : Type} (f : α → ℚ) (l : List α) :
    ∀ b t, (∀ s ∈ l, f s ≤ t) → bestFold f l (b, t) = (b, t) := by
  induction l with
  | nil => intro b t _; rfl
  | cons x l ih =>
    intro b t hall
    show bestFold f l (bestStep f (b, t) x) = (b, t)
    unfold bestStep
    rw [if_neg (not_lt.mpr (hall x (List.mem_cons_self x l)))]
    exact ih b t (fun s hs => hall s (List.mem_cons_of_mem x hs))

theorem bestFold_fst_of_no_gain {α : Type} (f : α → ℚ) (l : List α) (b : Option α) (t : ℚ)
    (h : foldMax f t l ≤ t) : (bestFold f l (b, t)).1 = b := by
  rw [bestFold_no_update f l b t (fun s hs => le_trans (mem_le_foldMax f l t s hs) h)]

theorem bestFold_fst_first_max {α : Type} (f : α → ℚ) (l : List α) :
    ∀ b t, t < foldMax f t l →
      (bestFold f l (b, t)).1 = l.find? (fun s => decide (f s = foldMax f t l)) := by
  induction l with
  | nil => intro b t h; exact absurd h (lt_irrefl t)
  | cons x l ih =>
    intro b t h
    rw [foldMax_cons] at h
    by_cases hx : f x > t
    · have hmax : max t (f x) = f x := max_eq_right (le_of_lt hx)
      rw [hmax] at h
      show (bestFold f l (bestStep f (b, t) x)).1 = _
      unfold bestStep
      rw [if_pos hx]
      by_cases h2 : f x < foldMax f (f x) l
      · have hMx : foldMax f t (x :: l) = foldMax f (f x) l := by
          rw [foldMax_cons, hmax]
        rw [hMx, List.find?_cons_of_neg l (by
          simp only [decide_eq_true_eq]
          exact ne_of_lt h2)]
        exact ih (some x) (f x) h2
      · have hM : foldMax f (f x) l = f x :=
          le_antisymm (not_lt.mp h2) (le_foldMax f l (f x))
        have hMx : foldMax f t (x :: l) = f x := by rw [foldMax_cons, hmax, hM]
        rw [hMx, List.find?_cons_of_pos l (by simp)]
        rw [bestFold_no_update f l (some x) (f x)
          (fun s hs => le_of_le_of_eq (mem_le_foldMax f l (f x) s hs) hM)]
    · have hmax : max t (f x) = t := max_eq_left (not_lt.mp hx)
      rw [hmax] at h
      have hMx : foldMax f t (x :: l) = foldMax f t l := by rw [foldMax_cons, hmax]
      show (bestFold f l (bestStep f (b, t) x)).1 = _
      unfold bestStep
      rw [if_neg hx, hMx, List.find?_cons_of_neg l (by
        simp only [decide_eq_true_eq]
        exact ne_of_lt (lt_of_le_of_lt (not_lt.mp hx) h))]
      exact ih b t h

theorem find?_congr_pred {α : Type} (p q : α → Bool) :
    ∀ l : List α, (∀ x ∈ l, p x = q x) → l.find? p = l.find? q := by
  intro l
  induction l with
  | nil => intro _; rfl
  | cons x l ih =>
    intro h
    by_cases hx : p x = true
    · rw [List.find?_cons_of_pos l hx, List.find?_cons_of_pos l
        (by rw [← h x (List.mem_cons_self x l)]; exact hx)]
    · rw [List.find?_cons_of_neg l hx, List.find?_cons_of_neg l
        (by rw [← h x (List.mem_cons_self x l)]; exact hx),
        ih (fun y hy => h y (List.mem_cons_of_mem x hy))]

theorem lowerChar_sep (c : Char) :
    (!(lowerChar c == '-') && !(lowerChar c == '_')) = (!(c == '-') && !(c == '_')) := by
  unfold lowerChar
  split <;> rfl

theorem stripSeparators_lowerStr (x : String) :
    stripSeparators (lowerStr x) = lowerStr (stripSeparators x) := by
  unfold stripSeparators lowerStr
  dsimp only
  rw [List.filter_map]
  simp only [Function.comp_def]
  exact congrArg (fun l => String.mk (List.map lowerChar l))
    (List.filter_congr (fun c _ => lowerChar_sep c))

theorem stripSeparators_hyphensToUnderscores (x : String) :
    stripSeparators (hyphensToUnderscores x) = stripSeparators x := by
  unfold stripSeparators hyphensToUnderscores
  dsimp only
  rw [List.filter_map]
  have h1 : x.data.filter ((fun c => !(c == '-') && !(c == '_')) ∘
      fun c => if c == '-' then '_' else c) = x.data.filter (fun c => !(c == '-') && !(c == '_')) :=
    List.filter_congr (fun c _ => by
      by_cases h : c = '-' <;> simp [h])
  rw [h1]
  congr 1
  have : ∀ c ∈ x.data.filter (fun c => !(c == '-') && !(c == '_')),
      (if c == '-' then '_' else c) = id c := by
    intro c hc
    have := List.of_mem_filter hc
    simp only [Bool.and_eq_true, Bool.not_eq_true', beq_eq_false_iff_ne] at this
    simp [this.1]
  rw [List.map_congr_left this, List.map_id]

theorem stripSeparators_underscoresToHyphens (x : String) :
    stripSeparators (underscoresToHyphens x) = stripSeparators x := by
  unfold stripSeparators underscoresToHyphens
  dsimp only
  rw [List.filter_map]
  have h1 : x.data.filter ((fun c => !(c == '-') && !(c == '_')) ∘
      fun c => if c == '_' then '-' else c) = x.data.filter (fun c => !(c == '-') && !(c == '_')) :=
    List.filter_congr (fun c _ => by
      by_cases h : c = '_' <;> simp [h])
  rw [h1]
  congr 1
  have : ∀ c ∈ x.data.filter (fun c => !(c == '-') && !(c == '_')),
      (if c == '_' then '-' else c) = id c := by
    intro c hc
    have := List.of_mem_filter hc
    simp only [Bool.and_eq_true, Bool.not_eq_true', beq_eq_false_iff_ne] at this
    simp [this.2]
  rw [List.map_congr_left this, List.map_id]

/-- Specification-side step (1) of the typo-correction chain: exact
case-insensitive match against the supported list. -/
def specExactMatch (model : String) : Option String :=
  SUPPORTED_MODELS.find? (fun s => decide (lowerStr s = lowerStr model))

/-- Specification-side step (2): comparison ignoring hyphens and
underscores (on both strings). -/
def specSeparatorBlindMatch (model : String) : Option String :=
  SUPPORTED_MODELS.find? (fun s =>
    decide (lowerStr (stripSeparators s) = lowerStr (stripSeparators model)))

/-- Specification-side step (3): comparison with the input's underscores
normalized to hyphens. -/
def specUnderscoreNormalizedMatch (model : String) : Option String :=
  SUPPORTED_MODELS.find? (fun s =>
    decide (lowerStr s = lowerStr (underscoresToHyphens model)))

/-- Specification-side best similarity score: the maximum over the
supported models of the character-overlap similarity — the number of the
shorter string's characters present anywhere in the longer string
(case-insensitively) divided by the longer string's length, which is
exactly `calculateSimilarity` — against the (lowercased) input. -/
def specBestScore (model : String) : ℚ :=
  foldMax (fun s => calculateSimilarity (lowerStr model) (lowerStr s)) 0 SUPPORTED_MODELS

/-- Specification-side step (4): accept the best-scoring supported model
(first in list order among those attaining the best score) only when its
score is strictly above 0.7; otherwise no match. -/
def specSimilarityPick (model : String) : Option String :=
  if specBestScore model > 7 / 10 then
    SUPPORTED_MODELS.find? (fun s =>
      decide (calculateSimilarity (lowerStr model) (lowerStr s) = specBestScore model))
  else none

/-- Specification-side typo-correction chain, steps in the claim's fixed
order with the first hit winning. -/
def specTypoChain (model : String) : Option String :=
  match specExactMatch model with
  | some s => some s
  | none =>
  match specSeparatorBlindMatch model with
  | some s => some s
  | none =>
  match specUnderscoreNormalizedMatch model with
  | some s => some s
  | none => specSimilarityPick model

theorem supported_strip_eq :
    ∀ s ∈ SUPPORTED_MODELS, stripSeparators s = stripHyphens s := by
  decide

theorem similarityLoop_as_bestFold (m : String) :
    similarityLoop m
      = bestFold (fun s => calculateSimilarity m (lowerStr s)) SUPPORTED_MODELS
          ((none : Option String), (7 / 10 : ℚ)) := rfl

theorem similarity_step_eq (model : String) :
    (similarityLoop (lowerStr model)).1 = specSimilarityPick model := by
  have hM : foldMax (fun s => calculateSimilarity (lowerStr model) (lowerStr s))
      (7 / 10) SUPPORTED_MODELS = max (7 / 10) (specBestScore model) := by
    unfold specBestScore
    rw [← foldMax_max]
    norm_num
  rw [similarityLoop_as_bestFold]
  unfold specSimilarityPick
  by_cases hb : specBestScore model > 7 / 10
  · have hMM : foldMax (fun s => calculateSimilarity (lowerStr model) (lowerStr s))
        (7 / 10) SUPPORTED_MODELS = specBestScore model := by
      rw [hM]
      exact max_eq_right (le_of_lt hb)
    rw [if_pos hb, bestFold_fst_first_max _ SUPPORTED_MODELS none (7 / 10)
      (by rw [hMM]; exact hb), hMM]
  · have hle : foldMax (fun s => calculateSimilarity (lowerStr model) (lowerStr s))
        (7 / 10) SUPPORTED_MODELS ≤ 7 / 10 := by
      rw [hM]
      exact max_le le_rfl (not_lt.mp hb)
    rw [if_neg hb]
    exact bestFold_fst_of_no_gain _ SUPPORTED_MODELS none (7 / 10) hle

theorem step3_code_implies_step2 (model s : String)
    (h : lowerStr (hyphensToUnderscores s) = lowerStr model) :
    lowerStr (stripSeparators s) = lowerStr (stripSeparators model) := by
  have h2 : stripSeparators (lowerStr (hyphensToUnderscores s))
      = stripSeparators (lowerStr model) := by rw [h]
  rw [stripSeparators_lowerStr, stripSeparators_lowerStr,
    stripSeparators_hyphensToUnderscores] at h2
  exact h2

theorem step3_spec_implies_step2 (model s : String)
    (h : lowerStr s = lowerStr (underscoresToHyphens model)) :
    lowerStr (stripSeparators s) = lowerStr (stripSeparators model) := by
  have h2 : stripSeparators (lowerStr s)
      = stripSeparators (lowerStr (underscoresToHyphens model)) := by rw [h]
  rw [stripSeparators_lowerStr, stripSeparators_lowerStr,
    stripSeparators_underscoresToHyphens] at h2
  exact h2

/-- C6: `findClosestModel` evaluates the typo-correction steps in the
claim's fixed order with the first hit winning — exact case-insensitive
match, then comparison ignoring hyphens/underscores, then comparison with
underscores normalized to hyphens, then character-overlap similarity
accepting the best-scoring supported model only strictly above 0.7 — and
returns `none` when no step produces a match.  (The source's second step
strips only hyphens from the supported name, and its third step maps the
supported name's hyphens to underscores instead of the input's
underscores to hyphens; both coincide with the claim's reading because no
supported name contains an underscore, so any string the third step could
match is already matched by the second.) -/
theorem c6_typo_chain (model : String) : findClosestModel model = specTypoChain model := by
  unfold findClosestModel specTypoChain
  dsimp only
  have hstep2 : SUPPORTED_MODELS.find? (fun s =>
      decide (lowerStr (stripHyphens s) = lowerStr (stripSeparators model)))
      = specSeparatorBlindMatch model := by
    unfold specSeparatorBlindMatch
    exact find?_congr_pred _ _ SUPPORTED_MODELS (fun s hs => by
      rw [supported_strip_eq s hs])
  rw [hstep2]
  unfold specExactMatch
  cases h1 : SUPPORTED_MODELS.find? (fun s => decide (lowerStr s = lowerStr model)) with
  | some s => rfl
  | none =>
    cases h2 : specSeparatorBlindMatch model with
    | some s => rfl
    | none =>
      have h2' := List.find?_eq_none.mp h2
      have hcode3 : SUPPORTED_MODELS.find? (fun s =>
          decide (lowerStr (hyphensToUnderscores s) = lowerStr model)) = none :=
        List.find?_eq_none.mpr (fun x hx => by
          simp only [decide_eq_true_eq]
          intro hset
          exact absurd (decide_eq_true (step3_code_implies_step2 model x hset))
            (h2' x hx))
      have hspec3 : specUnderscoreNormalizedMatch model = none :=
        List.find?_eq_none.mpr (fun x hx => by
          simp only [decide_eq_true_eq]
          intro hset
          exact absurd (decide_eq_true (step3_spec_implies_step2 model x hset))
            (h2' x hx))
      rw [hcode3, hspec3]
      exact similarity_step_eq model

/-- C10: `findClosestModel` returns `none` or an element of the fixed
`SUPPORTED_MODELS` list, and whenever `validateModelRecognition` returns
without raising, its result is an element of `SUPPORTED_MODELS` — the
resolver can never produce a model name outside the enumerated set. -/
theorem c10_resolver_range (model : String) :
    (findClosestModel model = none
      ∨ ∃ s ∈ SUPPORTED_MODELS, findClosestModel model = some s)
    ∧ (∀ r, validateModelRecognition model = Except.ok r → r ∈ SUPPORTED_MODELS) := by
  constructor
  · unfold findClosestModel
    dsimp only
    cases h1 : SUPPORTED_MODELS.find? (fun s => decide (lowerStr s = lowerStr model)) with
    | some s => exact Or.inr ⟨s, List.mem_of_find?_eq_some h1, rfl⟩
    | none =>
      cases h2 : SUPPORTED_MODELS.find? (fun s =>
          decide (lowerStr (stripHyphens s) = lowerStr (stripSeparators model))) with
      | some s => exact Or.inr ⟨s, List.mem_of_find?_eq_some h2, rfl⟩
      | none =>
        cases h3 : SUPPORTED_MODELS.find? (fun s =>
            decide (lowerStr (hyphensToUnderscores s) = lowerStr model)) with
        | some s => exact Or.inr ⟨s, List.mem_of_find?_eq_some h3, rfl⟩
        | none =>
          rw [similarity_step_eq]
          unfold specSimilarityPick
          by_cases hb : specBestScore model > 7 / 10
          · rw [if_pos hb]
            cases h4 : SUPPORTED_MODELS.find? (fun s =>
                decide (calculateSimilarity (lowerStr model) (lowerStr s)
                  = specBestScore model)) with
            | some s => exact Or.inr ⟨s, List.mem_of_find?_eq_some h4, rfl⟩
            | none => exact Or.inl rfl
          · rw [if_neg hb]
            exact Or.inl rfl
  · intro r hr
    unfold validateModelRecognition at hr
    cases hv : validateModelName model with
    | error e =>
      rw [hv] at hr
      cases hr
    | ok sanitized =>
      rw [hv] at hr
      dsimp only at hr
      cases hf : SUPPORTED_MODELS.find? (fun s =>
          decide (lowerStr s = lowerStr sanitized)) with
      | some supported =>
        rw [hf] at hr
        cases hr
        exact List.mem_of_find?_eq_some hf
      | none =>
        rw [hf] at hr
        cases hfc : findClosestModel sanitized <;> rw [hfc] at hr <;> cases hr

/-- Witness for C10: the canonical name `auto` resolves to itself, and the
result is in the supported list. -/
theorem c10_resolver_range_witness :
    validateModelRecognition "auto" = Except.ok "auto" ∧ "auto" ∈ SUPPORTED_MODELS := by
  have h : validateModelRecognition "auto" = Except.ok "auto" := by decide
  exact ⟨h, (c10_resolver_range "auto").2 "auto" h⟩
